import Mathlib

/-!
Verification of the core of the `relentless` potential-fitting package:
the pair-coefficient matrix, the Lennard-Jones pair potential with the
cutoff/shift policy, the `Tabulator.regularize` post-processing, the
`LineSearch.find` routine and the `SteepestDescent.optimize` loop.

Python floats are embedded as exact rationals (`ℚ`), numpy arrays as
`List ℚ`, and the mutable design-variable store as an explicit state
function `ℕ → ℚ` (variables are identified by natural-number ids).
In-place numpy mutation is embedded by returning the final contents of
the caller's arrays alongside the function's Python return value, and
raised exceptions by an `Except String` result paired with the state at
the moment of the raise.
-/

namespace Relentless

/-- Mutable store of `Variable` values, keyed by variable id.  `Variable`
itself lives in `variable.py`, which is not part of the sources at hand;
per the spec a design variable is a plain mutable float cell, so writes
are embedded as pointwise function update (no bounds are set, so the
spec's clamp-on-write is the identity). -/
abbrev VState := ℕ → ℚ

/-- Index of the first element satisfying `p`, if any (helper for
embedding `np.argmax` over a boolean array). -/
def firstIdx? (p : ℚ → Bool) : List ℚ → Option ℕ
  | [] => none
  | x :: xs => if p x then some 0 else (firstIdx? p xs).map (· + 1)

/-- `np.argmax` applied to the boolean array `map p l`: the index of the
first `true`, and `0` when every entry is `false`. -/
def argmaxB (p : ℚ → Bool) (l : List ℚ) : ℕ :=
  (firstIdx? p l).getD 0

/-- Array indexing with numpy's in-range use only; out-of-range reads
default to `0` (never exercised by the embedded code paths). -/
def nthD (l : List ℚ) (i : ℕ) : ℚ :=
  (l[i]?).getD 0

/-- `np.abs` on one float, as an executable conditional (definitionally
equal to Mathlib's lattice `|x|`, see `qabs_eq`). -/
def qabs (x : ℚ) : ℚ :=
  if x < 0 then -x else x

/-- `np.column_stack((r,u,f))` for equal-length columns. -/
def zip3 (a b c : List ℚ) : List (ℚ × ℚ × ℚ) :=
  a.zip (b.zip c)

/-!  ## Tabulator  (`potential.py`, class `Tabulator`)

`regularize(u, f, trim)` mutates `u` and `f` in place through numpy
fancy-index assignments and `u -= u[cut]`, then builds the output table
from a copy of the grid `r` and (possibly trimmed) views of `u`,`f`.
The embedding returns `((u_final, f_final), table)`: the first component
is the content of the caller's arrays after the call, the second the
stacked return value. -/

/-- The grid plus the two regularization thresholds held by a
`Tabulator` (the part of its state that `regularize` reads). -/
structure Tab where
  r : List ℚ
  fmax : Option ℚ
  fcut : Option ℚ

/-- The `fmax` step of `Tabulator.regularize`: find the first index from
the low-`r` end with `|f| <= fmax` (`np.argmax(np.abs(f) <= fmax)`,
which is `0` when no index qualifies); when that index is positive,
overwrite the energies before it with the tangent line through that
point and clamp the forces before it to that point's force. -/
def applyFmax (r u f : List ℚ) (m : ℚ) : List ℚ × List ℚ :=
  let cut := argmaxB (fun x => decide (qabs x ≤ m)) f
  if cut = 0 then (u, f)
  else
    ((List.range u.length).map fun i =>
        if i < cut then nthD u cut - nthD f cut * (nthD r i - nthD r cut) else nthD u i,
     (List.range f.length).map fun i =>
        if i < cut then nthD f cut else nthD f i)

/-- The `fcut` step of `Tabulator.regularize`: `cut` is the last index
with `|f| >= fcut` (`len(f)-1 - np.argmax(np.abs(np.flip(f)) >= fcut)`,
which is the LAST index when no entry qualifies); the whole energy array
is shifted down by `u[cut]`, and entries strictly after `cut` are zeroed
when any exist. -/
def applyFcut (u f : List ℚ) (c : ℚ) : List ℚ × List ℚ :=
  let n := f.length
  let amax := argmaxB (fun x => decide (c ≤ qabs x)) f.reverse
  let cut := n - 1 - amax
  let s := nthD u cut
  let u1 := u.map (fun q => q - s)
  if cut < n - 1 then
    ((List.range u1.length).map fun i => if cut < i then 0 else nthD u1 i,
     (List.range n).map fun i => if cut < i then 0 else nthD f i)
  else (u1, f)

/-- The trailing-zero trim step of `Tabulator.regularize`: keep indices
`0..cut` where `cut = len(f) - np.argmax(np.abs(np.flip(f)) > 0)`, when
that drops anything. -/
def applyTrim (r u f : List ℚ) : List ℚ × List ℚ × List ℚ :=
  let n := f.length
  let amax := argmaxB (fun x => decide (0 < qabs x)) f.reverse
  let cut := n - amax
  if cut < n - 1 then (r.take (cut + 1), u.take (cut + 1), f.take (cut + 1))
  else (r, u, f)

/-- `Tabulator.regularize(u, f, trim)`.  Returns the final contents of
the caller's arrays `u`,`f` (all numpy updates are in place; trimming
only rebinds local names to views) together with the stacked
`(r, u, f)` table built from the (copied) grid and the possibly trimmed
arrays.  Length mismatches raise `IndexError` before any mutation. -/
def regularize (t : Tab) (u f : List ℚ) (trim : Bool) :
    Except String ((List ℚ × List ℚ) × List (ℚ × ℚ × ℚ)) :=
  if u.length ≠ t.r.length then .error "Potential must have the same length as r."
  else if f.length ≠ t.r.length then .error "Force must have the same length as r."
  else
    let s1 := match t.fmax with
      | some m => applyFmax t.r u f m
      | none => (u, f)
    let s2 := match t.fcut with
      | some c => applyFcut s1.1 s1.2 c
      | none => s1
    let s3 := if trim then applyTrim t.r s2.1 s2.2 else (t.r, s2.1, s2.2)
    .ok ((s2.1, s2.2), zip3 s3.1 s3.2.1 s3.2.2)

/-!  ## Objective functions and results

`objective.py` is not among the sources at hand (only `method.py`, which
consumes it, is); the two types below are therefore modelled from the
spec. -/

/-- Modelled from the spec: `ObjectiveFunctionResult` (`objective.py` is
missing from the sources) — an immutable snapshot holding the design
variables, a frozen copy of their values at computation time, and the
gradient keyed by variable.  The scalar objective value is omitted: none
of the verified operations reads it. -/
structure OResult where
  keys : List ℕ
  dvals : ℕ → ℚ
  grad : ℕ → ℚ

/-- Modelled from the spec: an `ObjectiveFunction` (`objective.py` is
missing from the sources) — a fixed list of design variables and a
gradient that is a deterministic, non-mutating function of the current
variable values. -/
structure Objective where
  dvars : List ℕ
  gradAt : VState → ℕ → ℚ

/-- Modelled from the spec: `ObjectiveFunction.compute()` snapshots the
current variable values and gradient into a result. -/
def compute (o : Objective) (σ : VState) : OResult :=
  ⟨o.dvars, σ, o.gradAt σ⟩

/-!  ## Optimizer.has_converged  (`optimize/method.py`) -/

/-- A scalar hyperparameter or a per-variable dictionary, as accepted by
`Optimizer.abs_tol` and `SteepestDescent.scale`. -/
inductive KeySpec
  | scalar (q : ℚ)
  | dict (m : List (ℕ × ℚ))

/-- `self.abs_tol[x]` with the `try/except` of `has_converged`: a scalar
tolerance broadcasts (`TypeError` branch), a dictionary lookup that
misses re-raises `KeyError` (the Python message also carries `str(x)`;
the embedded message drops it). -/
def lookupTol : KeySpec → ℕ → Except String ℚ
  | .scalar t, _ => .ok t
  | .dict m, x =>
    match m.lookup x with
    | some t => .ok t
    | none => .error "Absolute tolerance not set for design variable"

/-- `self.scale[x]` with the `try/except` of `optimize`: scalars
broadcast and a missing dictionary entry falls back to `1.0`. -/
def lookupScale : KeySpec → ℕ → ℚ
  | .scalar s, _ => s
  | .dict m, x => (m.lookup x).getD 1

/-- The loop of `Optimizer.has_converged` over the design variables:
fetch the gradient, look up the tolerance (possibly raising), and return
`False` at the first variable whose gradient magnitude exceeds it. -/
def hasConvergedAux (tol : KeySpec) (g : ℕ → ℚ) : List ℕ → Except String Bool
  | [] => .ok true
  | x :: xs =>
    match lookupTol tol x with
    | .error e => .error e
    | .ok t => if qabs (g x) > t then .ok false else hasConvergedAux tol g xs

/-- `Optimizer.has_converged(result)`. -/
def hasConverged (tol : KeySpec) (res : OResult) : Except String Bool :=
  hasConvergedAux tol res.grad res.keys

/-!  ## LineSearch  (`optimize/method.py`, class `LineSearch`) -/

/-- The hyperparameters of a `LineSearch`. -/
structure LineSearch where
  relTol : ℚ
  maxIter : ℕ

/-- Componentwise dot product of two keyed arrays over the listed keys
(`KeyedArray.dot` of `_collections.py`, modelled from the spec since
that module is not among the sources). -/
def dotKeys (keys : List ℕ) (g h : ℕ → ℚ) : ℚ :=
  (keys.map fun x => g x * h x).sum

/-- The search direction `d = end.design_variables - start.design_variables`
(keyed on the design variables). -/
def searchDir (s e : OResult) : ℕ → ℚ :=
  fun x => e.dvals x - s.dvals x

/-- The probing assignment inside `LineSearch.find`'s loop: each design
variable is set to `start.design_variables[x] + step*d[x]`; other
variables keep their current values. -/
def probeState (o : Objective) (s : OResult) (d : ℕ → ℚ) (stp : ℚ) (σ : VState) : VState :=
  fun x => if x ∈ o.dvars then s.dvals x + stp * d x else σ x

/-- The iteration of `LineSearch.find`: secant-interpolate a step inside
the bracket, probe the objective there, and replace the bracket endpoint
whose target has the matching sign.  `fuel` counts the iterations still
allowed after the current one; the initial `new_target = np.inf` makes
the Python `while` guard true on entry, so the body always runs at least
once and the tolerance is checked after each body (`max_iter >= 1` is
enforced by the property setter). -/
def lsLoop (o : Objective) (s : OResult) (d : ℕ → ℚ) (tol : ℚ) :
    ℕ → VState → ℚ × ℚ → ℚ × ℚ → OResult × VState
  | fuel, σ, st, tg =>
    let stp := (st.1 * tg.2 - st.2 * tg.1) / (tg.2 - tg.1)
    let σ1 := probeState o s d stp σ
    let res := compute o σ1
    let tgt := -(dotKeys o.dvars d res.grad)
    match fuel with
    | 0 => (res, σ1)
    | fuel' + 1 =>
      if qabs tgt < tol then (res, σ1)
      else if tgt > 0 then lsLoop o s d tol fuel' σ1 (stp, st.2) (tgt, tg.2)
      else lsLoop o s d tol fuel' σ1 (st.1, stp) (tg.1, tgt)

/-- `LineSearch.find(objective, start, end)`.  The first component is
the Python return value (or the raised `ValueError`), the second the
content of the variable store when control leaves the function.
`d.norm() == 0` is embedded as `d·d = 0`, which is equivalent over exact
arithmetic. -/
def lsFind (ls : LineSearch) (o : Objective) (σ : VState) (s e : OResult) :
    Except String OResult × VState :=
  let d := searchDir s e
  if dotKeys o.dvars d d = 0 then
    (.error "The start and end of the search interval must be different.", σ)
  else
    let t0 := -(dotKeys o.dvars d s.grad)
    let t1 := -(dotKeys o.dvars d e.grad)
    if t0 < 0 then
      (.error "The defined search interval must be a descent direction.", σ)
    else
      let tol := ls.relTol * qabs t0
      if t1 > 0 ∨ qabs t1 < tol then (.ok e, σ)
      else
        let rs := lsLoop o s d tol (ls.maxIter - 1) σ (0, 1) (t0, t1)
        (.ok rs.1, fun x => if x ∈ o.dvars then σ x else rs.2 x)

/-- Extract the payload of an `.ok`, with a default (used only to phrase
closed instances of theorems whose hypotheses mention the payload). -/
def okD (x : Except String OResult) (d : OResult) : OResult :=
  match x with
  | .ok r => r
  | .error _ => d

/-!  ## SteepestDescent  (`optimize/method.py`) -/

/-- The hyperparameters of a `SteepestDescent` optimizer.
`SteepestDescent.descent_amount` is the constant `step_size` for every
key; the `FixedStepDescent` override divides it by the euclidean norm of
the scaled gradient (a real square root, outside exact rational
arithmetic) but inherits `optimize` and its update line unchanged. -/
structure SDesc where
  absTol : KeySpec
  maxIter : ℕ
  stepSize : ℚ
  scale : KeySpec
  lineSearch : Option LineSearch

/-- The tentative steepest-descent update (`optimize`, the
`x.value = cur_res.design_variables[x] - update[x]` loop) where
`update = descent_amount(scale*gradient) * (scale*gradient)` and the
descent amount is the constant `step_size`: each design variable is
written `x_old - step_size * scale[x] * gradient[x]`.  The per-variable
scale is the one fixed at the top of `optimize` (missing dictionary
entries default to `1.0`). -/
def sdStep (sd : SDesc) (o : Objective) (σ : VState) (cur : OResult) : VState :=
  fun x =>
    if x ∈ o.dvars then
      cur.dvals x - sd.stepSize * (lookupScale sd.scale x * cur.grad x)
    else σ x

/-- The `while` loop of `SteepestDescent.optimize`: check convergence
(which may raise), stop when converged or when the iteration budget is
exhausted, otherwise take the tentative step, recompute, optionally
refine through the line search (adopting its point), and recurse.  The
returned number counts the iterations performed. -/
def descentLoop (sd : SDesc) (o : Objective) :
    ℕ → VState → OResult → ℕ → Except String (OResult × ℕ) × VState
  | fuel, σ, cur, iters =>
    match hasConverged sd.absTol cur with
    | .error e => (.error e, σ)
    | .ok true => (.ok (cur, iters), σ)
    | .ok false =>
      match fuel with
      | 0 => (.ok (cur, iters), σ)
      | fuel' + 1 =>
        let σ1 := sdStep sd o σ cur
        let next := compute o σ1
        match sd.lineSearch with
        | none => descentLoop sd o fuel' σ1 next (iters + 1)
        | some ls =>
          match lsFind ls o σ1 cur next with
          | (.error e, σ2) => (.error e, σ2)
          | (.ok lr, σ2) =>
            let σ3 := fun x => if x ∈ o.dvars then lr.dvals x else σ2 x
            descentLoop sd o fuel' σ3 lr (iters + 1)

/-- `SteepestDescent.optimize(objective)`: `None` when there are no
design variables, otherwise loop from the freshly computed result and
finish with a final convergence check.  The second component is the
content of the variable store when the call ends (also on a raise). -/
def optimize (sd : SDesc) (o : Objective) (σ : VState) :
    Except String (Option Bool) × VState :=
  if o.dvars.isEmpty then (.ok none, σ)
  else
    match descentLoop sd o sd.maxIter σ (compute o σ) 0 with
    | (.error e, σf) => (.error e, σf)
    | (.ok (fin, _), σf) =>
      match hasConverged sd.absTol fin with
      | .error e => (.error e, σf)
      | .ok b => (.ok (some b), σf)

/-!  ## CoefficientMatrix  (`potential.py`, class `CoefficientMatrix`)

A coefficient slot holds `None` (unset) or a scalar, embedded as
`Option ℚ`.  The source additionally allows callable ("chained")
entries; `perturb` and `derivative` reject those with a `KeyError`
before touching any state, so they are orthogonal to the properties
proved here and the embedding keeps entries scalar.  Pair keys are
abstract ids (`ℕ`); the unordered-pair normalization of `PairMatrix`
lives in `core.py` (not among the sources) and is independent of the
evaluate/perturb logic. -/

/-- The per-pair parameter storage of a `CoefficientMatrix`: the
declared parameter names and the slot contents keyed by (pair, name). -/
structure CoeffMatrix where
  params : List String
  entries : ℕ × String → Option ℚ

/-- Read one (pair, parameter) slot (`self[key][param]`). -/
def getEntry (c : CoeffMatrix) (k : ℕ) (p : String) : Option ℚ :=
  c.entries (k, p)

/-- Write one (pair, parameter) slot (`self[key][param] = value`). -/
def setEntry (c : CoeffMatrix) (k : ℕ) (p : String) (v : Option ℚ) : CoeffMatrix :=
  { c with entries := fun kp => if kp = (k, p) then v else c.entries kp }

/-- The loop of `CoefficientMatrix.evaluate(pair)` over the declared
parameter names: resolve each slot, raising `ValueError` at the first
parameter that is still `None`. -/
def evalParams (c : CoeffMatrix) (pair : ℕ) : List String → Except String (List (String × ℚ))
  | [] => .ok []
  | p :: ps =>
    match getEntry c pair p with
    | none => .error ("Parameter " ++ p ++ " is not set for the pair.")
    | some q =>
      match evalParams c pair ps with
      | .error e => .error e
      | .ok rest => .ok ((p, q) :: rest)

/-- `CoefficientMatrix.evaluate(pair)`. -/
def evaluate (c : CoeffMatrix) (pair : ℕ) : Except String (List (String × ℚ)) :=
  evalParams c pair c.params

/-- `CoefficientMatrix.perturb(pair, key, param, value)`: guard the
parameter name and the current slot, evaluate the old parameters, swap
`value` in at `(key, param)`, evaluate again (an exception here
propagates with the swap still in place — there is no `try/finally`),
restore the old value and return `(new_params, old_params)`.  The
second component of the embedding is the matrix state when control
leaves the function. -/
def perturb (c : CoeffMatrix) (pair k : ℕ) (p : String) (v : Option ℚ) :
    Except String (List (String × ℚ) × List (String × ℚ)) × CoeffMatrix :=
  if ¬ c.params.contains p then
    (.error ("Parameter " ++ p ++ " is not part of the coefficient matrix."), c)
  else
    match getEntry c k p with
    | none => (.error ("Cannot perturb parameter " ++ p ++ ", not set for the pair."), c)
    | some old =>
      match evaluate c pair with
      | .error e => (.error e, c)
      | .ok oldParams =>
        let c1 := setEntry c k p v
        match evaluate c1 pair with
        | .error e => (.error e, c1)
        | .ok newParams => (.ok (newParams, oldParams), setEntry c1 k p (some old))

/-!  ## Pair potentials  (`potential.py`, classes `PairPotential` and
`LJPotential`)

Energies and forces are floats that can also be `np.inf` or `nan` (the
latter arises from `inf - inf` when `np.power(sigma/r, n)` is evaluated
at `r = 0` outside the `[rmin, rmax]` window); they are embedded as an
explicit value type with IEEE-style subtraction. -/

/-- A numpy float resulting from a potential evaluation: a finite value,
a signed infinity, or `nan`. -/
inductive PVal
  | val (q : ℚ)
  | inf
  | ninf
  | nan
  deriving DecidableEq

/-- IEEE subtraction on embedded numpy floats. -/
def PVal.sub : PVal → PVal → PVal
  | .val a, .val b => .val (a - b)
  | .val _, .inf => .ninf
  | .val _, .ninf => .inf
  | .inf, .val _ => .inf
  | .inf, .ninf => .inf
  | .ninf, .val _ => .ninf
  | .ninf, .inf => .ninf
  | .inf, .inf => .nan
  | .ninf, .ninf => .nan
  | .nan, _ => .nan
  | _, .nan => .nan

/-- The zero-detection tolerance of `np.isclose(r, 0)`: with numpy's
defaults `rtol=1e-5, atol=1e-8` and reference value `0`, the test is
`|r| <= atol + rtol*|0| = 1e-8`. -/
def atolZero : ℚ := 1 / 100000000

/-- `LJPotential.energy(r, epsilon, sigma, n, rmin, rmax)` at one grid
point, with `zero_flags = np.isclose(r, 0)` (`qabs r ≤ atolZero`) and
`range_flags = (rmin <= r <= rmax)`: the `logical_xor` branch evaluates
`4*eps*((sigma/r)^(2n) - (sigma/r)^n)` — also for out-of-window `r`
inside the isclose band, where the value is huge but (in exact
arithmetic) finite for `r ≠ 0`, and at exactly `r = 0` the float
pipeline yields `np.power(sigma/0, n) = inf` and then
`inf**2 - inf = nan`; the `logical_and` branch (isclose to zero and in
window) is set to `np.inf`; every other point keeps the `_zeros`
value `0`.  The exponent `n` (default `6`) is embedded as a natural
number. -/
def ljEnergy (eps sg : ℚ) (n : ℕ) (rmin rmax r : ℚ) : PVal :=
  let zero := qabs r ≤ atolZero
  let range := rmin ≤ r ∧ r ≤ rmax
  if (range ∧ ¬zero) ∨ (zero ∧ ¬range) then
    if r = 0 then .nan
    else .val (4 * eps * ((sg / r) ^ (2 * n) - (sg / r) ^ n))
  else if range ∧ zero then .inf
  else .val 0

/-- `LJPotential.force(r, pair)` at one grid point (same
`isclose`/range flag structure as the energy, with the closed-form
force on the xor branch). -/
def ljForce (eps sg : ℚ) (n : ℕ) (rmin rmax r : ℚ) : PVal :=
  let zero := qabs r ≤ atolZero
  let range := rmin ≤ r ∧ r ≤ rmax
  if (range ∧ ¬zero) ∨ (zero ∧ ¬range) then
    if r = 0 then .nan
    else .val ((8 * (n : ℚ) * eps * (1 / r)) * ((sg / r) ^ (2 * n) - (1 / 2) * (sg / r) ^ n))
  else if range ∧ zero then .inf
  else .val 0

/-- `PairPotential.__call__(r, pair)` for an `LJPotential`: the raw
energy, minus — when `shift` is set — the energy at `rmax` for every
`r <= rmax` (the mask `np.atleast_1d(r) <= params['rmax']` makes no
exception for `r < rmin`). -/
def pairEnergy (shift : Bool) (eps sg : ℚ) (n : ℕ) (rmin rmax r : ℚ) : PVal :=
  let u := ljEnergy eps sg n rmin rmax r
  if shift ∧ r ≤ rmax then u.sub (ljEnergy eps sg n rmin rmax rmax) else u

/-- The number of leading table entries the trim step of
`Tabulator.regularize` keeps, as a function of the final force array
(all entries when nothing is trimmed). -/
def trimCount (f : List ℚ) : ℕ :=
  let n := f.length
  let amax := argmaxB (fun x => decide (0 < qabs x)) f.reverse
  let cut := n - amax
  if cut < n - 1 then cut + 1 else n

/-!  ## Concrete instances used to witness or refute the claims -/

/-- A steepest-descent optimizer with `step_size = 1/4` and the scalar
scaling parameter `X = 2` (tolerance `0`, one iteration, no line
search). -/
def sdC1 : SDesc := ⟨.scalar 0, 1, 1/4, .scalar 2, none⟩

/-- An objective in one design variable whose gradient is constantly
`1`. -/
def oC1 : Objective := ⟨[0], fun _ _ => 1⟩

/-- A steepest-descent optimizer with unit scaling, `step_size = 1/4`,
tolerance `0` and a single allowed iteration. -/
def sdC2 : SDesc := ⟨.scalar 0, 1, 1/4, .scalar 1, none⟩

/-- An objective in one design variable whose gradient is constantly
`1` (never converges under a zero tolerance). -/
def oC2 : Objective := ⟨[0], fun _ _ => 1⟩

/-- A result over design variables `0` and `1` whose gradient is `10`
on variable `0` and `0` on variable `1`. -/
def resC3 : OResult := ⟨[0, 1], fun _ => 0, fun x => if x = 0 then 10 else 0⟩

/-- A result over design variables `0` and `1` with identically zero
gradient. -/
def resC3w : OResult := ⟨[0, 1], fun _ => 0, fun _ => 0⟩

/-- An objective in one design variable with gradient `-x` (so the
gradient vanishes at `x = 0`). -/
def oC7 : Objective := ⟨[0], fun σc _ => -(σc 0)⟩

/-- `oC7` evaluated at `x = 0`: zero gradient, so the line-search start
target is exactly `0`. -/
def sC7 : OResult := compute oC7 (fun _ => 0)

/-- `oC7` evaluated at `x = 1`. -/
def eC7 : OResult := compute oC7 (fun _ => 1)

/-- An objective in one design variable with gradient `x`. -/
def oC7w : Objective := ⟨[0], fun σc _ => σc 0⟩

/-- `oC7w` evaluated at `x = 1` (positive gradient, so stepping towards
larger `x` is not a descent direction). -/
def sC7w : OResult := compute oC7w (fun _ => 1)

/-- `oC7w` evaluated at `x = 2`. -/
def eC7w : OResult := compute oC7w (fun _ => 2)

/-- The spec's quadratic test objective `f(x) = (x-1)^2` in one design
variable: gradient `2(x-1)`. -/
def oC8 : Objective := ⟨[0], fun σc _ => 2 * (σc 0 - 1)⟩

/-- `oC8` evaluated at `x = 3`. -/
def sC8 : OResult := compute oC8 (fun _ => 3)

/-- `oC8` evaluated at `x = -1` (the interval from `x = 3` brackets the
minimizer `x = 1`). -/
def eC8 : OResult := compute oC8 (fun _ => -1)

/-- A line search with `rel_tol = 1/2` and up to `2` iterations (one
suffices on the quadratic below). -/
def lsC8 : LineSearch := ⟨1/2, 2⟩

/-- A coefficient matrix with the single parameter `eps`, set to `1`
for pair `0`. -/
def cC9 : CoeffMatrix := ⟨["eps"], fun kp => if kp = (0, "eps") then some 1 else none⟩

/-!  ## Helper lemmas -/

theorem nthD_of_le {l : List ℚ} {i : ℕ} (h : l.length ≤ i) : nthD l i = 0 := by
  simp [nthD, List.getElem?_eq_none h]

theorem nthD_range_map (g : ℕ → ℚ) {n i : ℕ} (h : i < n) :
    nthD ((List.range n).map g) i = g i := by
  simp [nthD, List.getElem?_map, List.getElem?_range h]

theorem nthD_cons_succ (x : ℚ) (xs : List ℚ) (j : ℕ) :
    nthD (x :: xs) (j + 1) = nthD xs j := by
  simp [nthD]

theorem firstIdx?_spec (p : ℚ → Bool) :
    ∀ (l : List ℚ) (i : ℕ), firstIdx? p l = some i →
      i < l.length ∧ p (nthD l i) = true ∧ ∀ j < i, p (nthD l j) = false := by
  intro l
  induction l with
  | nil => intro i h; simp [firstIdx?] at h
  | cons x xs ih =>
    intro i h
    by_cases hx : p x
    · simp [firstIdx?, hx] at h
      subst h
      exact ⟨Nat.succ_pos _, by simpa [nthD] using hx, fun j hj => absurd hj (Nat.not_lt_zero j)⟩
    · simp [firstIdx?, hx] at h
      obtain ⟨i', hi', rfl⟩ := h
      obtain ⟨hlen, hp, hprev⟩ := ih i' hi'
      refine ⟨by simpa using Nat.succ_lt_succ hlen, by simpa [nthD_cons_succ] using hp, ?_⟩
      intro j hj
      cases j with
      | zero => simpa [nthD] using hx
      | succ j' => simpa [nthD_cons_succ] using hprev j' (Nat.lt_of_succ_lt_succ hj)

theorem qabs_eq (x : ℚ) : qabs x = |x| := by
  unfold qabs
  split
  · exact (abs_of_neg (by assumption)).symm
  · exact (abs_of_nonneg (le_of_not_lt (by assumption))).symm

theorem applyFmax_length (r u f : List ℚ) (m : ℚ) :
    (applyFmax r u f m).1.length = u.length ∧ (applyFmax r u f m).2.length = f.length := by
  simp only [applyFmax]
  split <;> simp

theorem applyFcut_length (u f : List ℚ) (c : ℚ) :
    (applyFcut u f c).1.length = u.length ∧ (applyFcut u f c).2.length = f.length := by
  simp only [applyFcut]
  split <;> simp

theorem applyTrim_take (r u f : List ℚ) (hru : u.length = f.length) (hrf : r.length = f.length) :
    applyTrim r u f =
      (r.take (trimCount f), u.take (trimCount f), f.take (trimCount f)) := by
  simp only [applyTrim, trimCount]
  by_cases h : f.length - argmaxB (fun x => decide (0 < qabs x)) f.reverse < f.length - 1
  · simp [h]
  · simp only [h, if_false]
    have h1 : r.take f.length = r := by rw [← hrf]; exact List.take_length r
    have h2 : u.take f.length = u := by rw [← hru]; exact List.take_length u
    have h3 : f.take f.length = f := List.take_length f
    rw [h1, h2, h3]

/-!  ## Claims about `Tabulator.regularize` -/

/-- C5: when `fmax` is set and the inputs have the grid's length, the
scan locates the first index `cut` with `|f[cut]| <= fmax`; every index
before it gets the tangent-line energy `u[cut] - f[cut]*(r[i]-r[cut])`
and the clamped force `f[cut]`, entries at and after `cut` are
unaffected by this step, and `regularize` (with no `fcut` and no trim)
returns exactly this table. -/
theorem regularize_fmax_head (r u f : List ℚ) (m : ℚ) (cut : ℕ)
    (hu : u.length = r.length) (hf : f.length = r.length)
    (hcut : firstIdx? (fun x => decide (qabs x ≤ m)) f = some cut) :
    (|nthD f cut| ≤ m ∧ ∀ j < cut, ¬(|nthD f j| ≤ m)) ∧
    (∀ i < cut,
      nthD (applyFmax r u f m).1 i = nthD u cut - nthD f cut * (nthD r i - nthD r cut) ∧
      nthD (applyFmax r u f m).2 i = nthD f cut) ∧
    (∀ i, cut ≤ i →
      nthD (applyFmax r u f m).1 i = nthD u i ∧
      nthD (applyFmax r u f m).2 i = nthD f i) ∧
    regularize ⟨r, some m, none⟩ u f false =
      .ok (applyFmax r u f m,
        zip3 r (applyFmax r u f m).1 (applyFmax r u f m).2) := by
  obtain ⟨hlen, hp, hprev⟩ := firstIdx?_spec _ f cut hcut
  have hscan : (|nthD f cut| ≤ m ∧ ∀ j < cut, ¬(|nthD f j| ≤ m)) := by
    constructor
    · have := of_decide_eq_true hp
      rwa [qabs_eq] at this
    · intro j hj
      have := of_decide_eq_false (hprev j hj)
      rwa [qabs_eq] at this
  have hargmax : argmaxB (fun x => decide (qabs x ≤ m)) f = cut := by
    simp [argmaxB, hcut]
  have hcutu : cut < u.length := by omega
  have hcutf : cut < f.length := by omega
  refine ⟨hscan, ?_, ?_, ?_⟩
  · intro i hi
    have hiu : i < u.length := by omega
    have hif : i < f.length := by omega
    unfold applyFmax
    rw [hargmax]
    have hc0 : cut ≠ 0 := by omega
    simp only [hc0, if_false]
    constructor
    · rw [nthD_range_map _ hiu, if_pos hi]
    · rw [nthD_range_map _ hif, if_pos hi]
  · intro i hi
    unfold applyFmax
    rw [hargmax]
    by_cases hc0 : cut = 0
    · simp [hc0]
    · simp only [hc0, if_false]
      constructor
      · by_cases hiu : i < u.length
        · rw [nthD_range_map _ hiu, if_neg (by omega)]
        · rw [nthD_of_le (by simpa using Nat.le_of_not_lt hiu),
            nthD_of_le (Nat.le_of_not_lt hiu)]
      · by_cases hif : i < f.length
        · rw [nthD_range_map _ hif, if_neg (by omega)]
        · rw [nthD_of_le (by simpa using Nat.le_of_not_lt hif),
            nthD_of_le (Nat.le_of_not_lt hif)]
  · simp [regularize, hu, hf]

/-- C5 (witness): on the grid `r=[1,2,3]` with `u=[7,6,3]`, `f=[9,2,1]`
and `fmax=5`, the first compliant index is `1` and the head entry is
rewritten to the tangent value `8` with clamped force `2`. -/
theorem regularize_fmax_head_witness :
    nthD (applyFmax [1, 2, 3] [7, 6, 3] [9, 2, 1] 5).1 0 = 8 ∧
    nthD (applyFmax [1, 2, 3] [7, 6, 3] [9, 2, 1] 5).2 0 = 2 := by
  have h := (regularize_fmax_head [1, 2, 3] [7, 6, 3] [9, 2, 1] 5 1 rfl rfl
    (by norm_num [firstIdx?, qabs])).2.1 0 (by norm_num)
  exact ⟨h.1.trans (by norm_num [nthD]), h.2.trans (by norm_num [nthD])⟩

/-- C6: with `fcut` set and no grid point reaching it, `regularize`
neither warns nor returns the input unchanged: on the table
`r=[1,2,3]`, `u=[5,4,3]`, `f=[3,2,1]` with `fcut=10` it shifts every
energy down by `u[len-1] = 3` (the repo's own regularization test and
the spec expect a `UserWarning` and the untouched full table here). -/
theorem regularize_fcut_miss_shifts :
    regularize ⟨[1, 2, 3], none, some 10⟩ [5, 4, 3] [3, 2, 1] true =
      .ok (([2, 1, 0], [3, 2, 1]), [(1, 2, 3), (2, 1, 2), (3, 0, 1)]) ∧
    ([2, 1, 0] : List ℚ) ≠ [5, 4, 3] := by
  constructor
  · norm_num [regularize, applyFcut, applyTrim, argmaxB, firstIdx?, qabs, nthD, zip3]
  · norm_num

/-- C10: `regularize` mutates the caller's `u` and `f` arrays in place:
the returned array state is independent of `trim`, keeps the full input
length, carries exactly the values the untrimmed table is stacked from,
and the trimmed table is the `trimCount`-entry head of that same
state. -/
theorem regularize_state_reflects_mutation (t : Tab) (u f : List ℚ)
    (stT stF : (List ℚ × List ℚ) × List (ℚ × ℚ × ℚ))
    (hT : regularize t u f true = .ok stT)
    (hF : regularize t u f false = .ok stF) :
    stT.1 = stF.1 ∧
    stT.1.1.length = u.length ∧ stT.1.2.length = f.length ∧
    stF.2 = zip3 t.r stT.1.1 stT.1.2 ∧
    stT.2 = zip3 (t.r.take (trimCount stT.1.2)) (stT.1.1.take (trimCount stT.1.2))
      (stT.1.2.take (trimCount stT.1.2)) := by
  have hu : u.length = t.r.length := by
    by_contra h
    simp [regularize, h] at hT
  have hf : f.length = t.r.length := by
    by_contra h
    simp [regularize, hu, h] at hT
  simp only [regularize, hu, hf, ne_eq, not_true_eq_false, if_false] at hT hF
  set s1 : List ℚ × List ℚ :=
    (match t.fmax with
      | some m => applyFmax t.r u f m
      | none => (u, f)) with hs1
  set s2 : List ℚ × List ℚ :=
    (match t.fcut with
      | some c => applyFcut s1.1 s1.2 c
      | none => s1) with hs2
  have hlen1 : s1.1.length = u.length ∧ s1.2.length = f.length := by
    rw [hs1]
    cases t.fmax with
    | none => exact ⟨rfl, rfl⟩
    | some m => exact applyFmax_length t.r u f m
  have hlen2 : s2.1.length = u.length ∧ s2.2.length = f.length := by
    rw [hs2]
    cases t.fcut with
    | none => exact hlen1
    | some c =>
      obtain ⟨h1, h2⟩ := applyFcut_length s1.1 s1.2 c
      exact ⟨h1.trans hlen1.1, h2.trans hlen1.2⟩
  simp only [if_true, if_false, Bool.false_eq_true] at hT hF
  rw [Except.ok.injEq] at hT hF
  subst hT
  subst hF
  refine ⟨rfl, hlen2.1, hlen2.2, rfl, ?_⟩
  show zip3 (applyTrim t.r s2.1 s2.2).1 (applyTrim t.r s2.1 s2.2).2.1
      (applyTrim t.r s2.1 s2.2).2.2 = _
  rw [applyTrim_take t.r s2.1 s2.2 (by rw [hlen2.1, hlen2.2, hu, hf])
    (by rw [hlen2.2, hf])]

/-- C10 (witness): a table where the `fmax` step rewrites the head, the
`fcut` step shifts and zeroes the tail, and the trim step drops the last
grid point; the caller's arrays hold the full-length regularized values
while the returned table is their three-entry head. -/
theorem regularize_state_witness :
    (((([4, 0, 0, 0], [4, 4, 0, 0]) : List ℚ × List ℚ),
        ([(1, 4, 4), (2, 0, 4), (3, 0, 0)] : List (ℚ × ℚ × ℚ))).1 =
      ((([4, 0, 0, 0], [4, 4, 0, 0]) : List ℚ × List ℚ),
        ([(1, 4, 4), (2, 0, 4), (3, 0, 0), (4, 0, 0)] : List (ℚ × ℚ × ℚ))).1) ∧
    ([4, 0, 0, 0] : List ℚ).length = ([20, 6, 3, 1] : List ℚ).length ∧
    ([4, 4, 0, 0] : List ℚ).length = ([7, 4, 1, 0] : List ℚ).length ∧
    ([(1, 4, 4), (2, 0, 4), (3, 0, 0), (4, 0, 0)] : List (ℚ × ℚ × ℚ)) =
      zip3 [1, 2, 3, 4] [4, 0, 0, 0] [4, 4, 0, 0] ∧
    ([(1, 4, 4), (2, 0, 4), (3, 0, 0)] : List (ℚ × ℚ × ℚ)) =
      zip3 (([1, 2, 3, 4] : List ℚ).take (trimCount [4, 4, 0, 0]))
        (([4, 0, 0, 0] : List ℚ).take (trimCount [4, 4, 0, 0]))
        (([4, 4, 0, 0] : List ℚ).take (trimCount [4, 4, 0, 0])) :=
  regularize_state_reflects_mutation ⟨[1, 2, 3, 4], some 5, some 2⟩
    [20, 6, 3, 1] [7, 4, 1, 0]
    (([4, 0, 0, 0], [4, 4, 0, 0]), [(1, 4, 4), (2, 0, 4), (3, 0, 0)])
    (([4, 0, 0, 0], [4, 4, 0, 0]), [(1, 4, 4), (2, 0, 4), (3, 0, 0), (4, 0, 0)])
    (by
      have hr4 : List.range 4 = [0, 1, 2, 3] := rfl
      norm_num [regularize, applyFmax, applyFcut, applyTrim, argmaxB,
        firstIdx?, qabs, nthD, zip3, hr4])
    (by
      have hr4 : List.range 4 = [0, 1, 2, 3] := rfl
      norm_num [regularize, applyFmax, applyFcut, applyTrim, argmaxB,
        firstIdx?, qabs, nthD, zip3, hr4])

/-!  ## Claims about `Optimizer.has_converged` -/

theorem hasConvergedAux_ok_true_iff (tol : KeySpec) (g : ℕ → ℚ) :
    ∀ l : List ℕ, hasConvergedAux tol g l = .ok true ↔
      ∀ x ∈ l, ∃ t, lookupTol tol x = .ok t ∧ |g x| ≤ t := by
  intro l
  induction l with
  | nil => simp [hasConvergedAux]
  | cons x xs ih =>
    constructor
    · intro h
      rcases hx : lookupTol tol x with e | t
      · simp [hasConvergedAux, hx] at h
      · simp only [hasConvergedAux, hx] at h
        by_cases hgt : qabs (g x) > t
        · rw [if_pos hgt] at h
          exact absurd h (by simp)
        · rw [if_neg hgt] at h
          simp only [gt_iff_lt, not_lt, qabs_eq] at hgt
          intro y hy
          rcases List.mem_cons.mp hy with rfl | hmem
          · exact ⟨t, hx, hgt⟩
          · exact (ih.mp h) y hmem
    · intro h
      obtain ⟨t, hx, hle⟩ := h x (List.mem_cons_self x xs)
      simp only [hasConvergedAux, hx]
      rw [if_neg (by simp only [gt_iff_lt, not_lt, qabs_eq]; exact hle)]
      exact ih.mpr fun y hy => h y (List.mem_cons_of_mem x hy)

theorem hasConvergedAux_error_of (tol : KeySpec) (g : ℕ → ℚ) :
    ∀ (pre : List ℕ) (x : ℕ) (post : List ℕ) (e : String),
      (∀ y ∈ pre, ∃ t, lookupTol tol y = .ok t ∧ |g y| ≤ t) →
      lookupTol tol x = .error e →
      hasConvergedAux tol g (pre ++ x :: post) = .error e := by
  intro pre
  induction pre with
  | nil =>
    intro x post e _ hx
    rw [List.nil_append]
    simp only [hasConvergedAux, hx]
  | cons y ys ih =>
    intro x post e hpre hx
    obtain ⟨t, hy, hle⟩ := hpre y (List.mem_cons_self y ys)
    rw [List.cons_append]
    simp only [hasConvergedAux, hy]
    rw [if_neg (by simp only [gt_iff_lt, not_lt, qabs_eq]; exact hle)]
    exact ih x post e (fun z hz => hpre z (List.mem_cons_of_mem y hz)) hx

/-- C3 (amended): `has_converged` returns `True` exactly when every
design variable has a defined tolerance and a gradient within it; a
missing per-variable tolerance raises `KeyError` only when it is
reached, i.e. when every design variable listed before it is within its
own tolerance (an earlier variable exceeding its tolerance returns
`False` before the missing entry is noticed). -/
theorem has_converged_characterization (tol : KeySpec) (res : OResult) :
    (hasConverged tol res = .ok true ↔
      ∀ x ∈ res.keys, ∃ t, lookupTol tol x = .ok t ∧ |res.grad x| ≤ t) ∧
    (∀ (pre : List ℕ) (x : ℕ) (post : List ℕ) (e : String),
      res.keys = pre ++ x :: post →
      (∀ y ∈ pre, ∃ t, lookupTol tol y = .ok t ∧ |res.grad y| ≤ t) →
      lookupTol tol x = .error e →
      hasConverged tol res = .error e) := by
  constructor
  · exact hasConvergedAux_ok_true_iff tol res.grad res.keys
  · intro pre x post e hkeys hpre hx
    rw [hasConverged, hkeys]
    exact hasConvergedAux_error_of tol res.grad pre x post e hpre hx

/-- C3 (counterexample): with design variables `[0, 1]`, gradient `10`
on variable `0` and a tolerance dictionary holding only variable `0`
(with tolerance `1`), `has_converged` returns `False` — it does not
raise, even though the dictionary lacks an entry for design variable
`1`. -/
theorem has_converged_false_despite_missing_tol :
    hasConverged (.dict [(0, 1)]) resC3 = .ok false ∧
    lookupTol (.dict [(0, 1)]) 1 =
      .error "Absolute tolerance not set for design variable" ∧
    resC3.keys = [0, 1] := by
  refine ⟨?_, rfl, rfl⟩
  norm_num [hasConverged, hasConvergedAux, lookupTol, resC3, qabs]

/-- C3 (witness): with a zero gradient on variable `0` and a tolerance
dictionary that lacks variable `1`, the missing entry is reached and
`has_converged` raises. -/
theorem has_converged_characterization_witness :
    hasConverged (.dict [(0, 5)]) resC3w =
      .error "Absolute tolerance not set for design variable" :=
  (has_converged_characterization (.dict [(0, 5)]) resC3w).2 [0] 1 []
    "Absolute tolerance not set for design variable" rfl
    (by
      intro y hy
      have hy0 : y = 0 := by simpa using hy
      subst hy0
      exact ⟨5, rfl, by norm_num [resC3w]⟩)
    rfl

/-!  ## Claims about the pair-potential cutoff policy -/

/-- C4 (amended): strictly outside `[rmin, rmax]`, at `r` beyond
numpy's isclose-to-zero band (`r > 1e-8`), the LJ force is zero and the
unshifted energy is zero; with `shift=True` the energy is still zero
beyond `rmax`, but below `rmin` it equals `0 - energy(rmax)` because
the shift mask `r <= rmax` also covers `r < rmin` (so it is nonzero
whenever the cutoff energy is).  Inside the band (`0 < r <= 1e-8`)
below `rmin` the xor branch evaluates the raw LJ formula instead of
returning zero — see the counterexample. -/
theorem lj_outside_cutoff (eps sg : ℚ) (n : ℕ) (rmin rmax r : ℚ) (sh : Bool)
    (hr : atolZero < r) (hmm : rmin ≤ rmax) (hout : r < rmin ∨ rmax < r) :
    ljForce eps sg n rmin rmax r = .val 0 ∧
    pairEnergy false eps sg n rmin rmax r = .val 0 ∧
    (rmax < r → pairEnergy sh eps sg n rmin rmax r = .val 0) ∧
    (r < rmin → pairEnergy true eps sg n rmin rmax r =
      (PVal.val 0).sub (ljEnergy eps sg n rmin rmax rmax)) := by
  have hr0 : 0 < r := lt_trans (by norm_num [atolZero]) hr
  have hq : qabs r = r := by
    rw [qabs, if_neg (not_lt.mpr (le_of_lt hr0))]
  have hzero : ¬(qabs r ≤ atolZero) := by
    rw [hq]
    exact not_le.mpr hr
  have hnin : ¬(rmin ≤ r ∧ r ≤ rmax) := by
    rcases hout with h | h
    · exact fun hc => absurd hc.1 (not_le.mpr h)
    · exact fun hc => absurd hc.2 (not_le.mpr h)
  have hx : ¬(((rmin ≤ r ∧ r ≤ rmax) ∧ ¬(qabs r ≤ atolZero)) ∨
      ((qabs r ≤ atolZero) ∧ ¬(rmin ≤ r ∧ r ≤ rmax))) := by
    rintro (⟨hA, _⟩ | ⟨hB, _⟩)
    · exact hnin hA
    · exact hzero hB
  have handz : ¬((rmin ≤ r ∧ r ≤ rmax) ∧ (qabs r ≤ atolZero)) := fun hc => hnin hc.1
  have hu0 : ljEnergy eps sg n rmin rmax r = .val 0 := by
    simp only [ljEnergy]
    rw [if_neg hx, if_neg handz]
  refine ⟨?_, ?_, ?_, ?_⟩
  · simp only [ljForce]
    rw [if_neg hx, if_neg handz]
  · simp [pairEnergy, hu0]
  · intro h
    have : ¬(r ≤ rmax) := not_le.mpr h
    simp [pairEnergy, hu0, this]
  · intro h
    have hle : r ≤ rmax := le_of_lt (lt_of_lt_of_le h hmm)
    simp [pairEnergy, hu0, hle]

/-- C4 (counterexample): two refutations of the cutoff claim on the
source's flag logic.  First, with `eps=1`, `sigma=1`, `n=3`, `rmin=1`,
`rmax=2` and `shift=True`, the energy at `r=1/2` — strictly below
`rmin` — is `7/16`, not `0`: the shift subtraction covers `r < rmin`.
Second, even without the shift, at `r = 10^-9` (nonzero, strictly
below `rmin = 1`, inside numpy's isclose-to-zero band `|r| <= 10^-8`)
the `logical_xor` branch evaluates the raw LJ formula: with `n=1` the
energy is `4*(10^18 - 10^9)`, not `0`. -/
theorem lj_shift_nonzero_below_rmin :
    (((1 : ℚ)/2 < 1 ∧ (0 : ℚ) < 1/2) ∧
      pairEnergy true 1 1 3 1 2 (1/2) = .val (7/16) ∧
      pairEnergy true 1 1 3 1 2 (1/2) ≠ .val 0) ∧
    (((0 : ℚ) < 1/1000000000 ∧ (1 : ℚ)/1000000000 < 1 ∧
        qabs (1/1000000000) ≤ atolZero) ∧
      ljEnergy 1 1 1 1 2 (1/1000000000) =
        .val (4 * ((1000000000 : ℚ) ^ 2 - 1000000000)) ∧
      ljEnergy 1 1 1 1 2 (1/1000000000) ≠ .val 0) := by
  have h1 : pairEnergy true 1 1 3 1 2 (1/2) = .val (7/16) := by
    norm_num [pairEnergy, ljEnergy, PVal.sub, qabs, atolZero]
  have h2 : ljEnergy 1 1 1 1 2 (1/1000000000) =
      .val (4 * ((1000000000 : ℚ) ^ 2 - 1000000000)) := by
    norm_num [ljEnergy, qabs, atolZero]
  refine ⟨⟨by norm_num, h1, ?_⟩, ⟨by norm_num [qabs, atolZero], h2, ?_⟩⟩
  · rw [h1]
    intro hc
    rw [PVal.val.injEq] at hc
    norm_num at hc
  · rw [h2]
    intro hc
    rw [PVal.val.injEq] at hc
    norm_num at hc

/-- C4 (witness): the same potential evaluated at `r=3`, strictly above
`rmax=2` and outside the isclose band, has zero shifted energy. -/
theorem lj_outside_cutoff_witness :
    pairEnergy true 1 1 3 1 2 3 = .val 0 :=
  (lj_outside_cutoff 1 1 3 1 2 3 true (by norm_num [atolZero]) (by norm_num)
    (Or.inr (by norm_num))).2.2.1 (by norm_num)

/-!  ## Claims about `CoefficientMatrix.perturb` -/

/-- C9 (amended): when `perturb` returns normally, the stored matrix is
restored (every slot equals its pre-call value), `oldParams` is the
evaluation under the original value and `newParams` the evaluation with
`value` swapped in; but an exception raised by the post-swap evaluation
leaves the swap in place (see the counterexample). -/
theorem perturb_restores_on_success (c : CoeffMatrix) (pair k : ℕ) (p : String)
    (v : Option ℚ) (np_ op_ : List (String × ℚ))
    (h : (perturb c pair k p v).1 = .ok (np_, op_)) :
    (∀ k' p', getEntry (perturb c pair k p v).2 k' p' = getEntry c k' p') ∧
    evaluate c pair = .ok op_ ∧
    evaluate (setEntry c k p v) pair = .ok np_ := by
  by_cases hcp : c.params.contains p
  · rw [perturb, if_neg (not_not_intro hcp)] at h
    rcases hg : getEntry c k p with _ | old
    · simp [hg] at h
    · rcases hev : evaluate c pair with e | oldP
      · simp [hg, hev] at h
      · rcases hev1 : evaluate (setEntry c k p v) pair with e | newP
        · simp [hg, hev, hev1] at h
        · simp only [hg, hev, hev1, Except.ok.injEq, Prod.mk.injEq] at h
          obtain ⟨rfl, rfl⟩ := h
          refine ⟨?_, rfl, rfl⟩
          intro k' p'
          rw [perturb, if_neg (not_not_intro hcp)]
          simp only [hg, hev, hev1]
          simp only [getEntry, setEntry]
          by_cases hk : (k', p') = (k, p)
          · rw [if_pos hk, hk]
            exact (show c.entries (k, p) = some old from hg).symm
          · rw [if_neg hk, if_neg hk]
  · rw [perturb, if_pos (by simpa using hcp)] at h
    exact absurd h (by simp)

/-- C9 (counterexample): perturbing the set scalar `eps` of pair `0`
with the new value `None` makes the post-swap evaluation raise, and the
raise propagates with the swap still in place: after the call the
stored entry is `None`, not its pre-call value `1`. -/
theorem perturb_state_leak_on_error :
    getEntry cC9 0 "eps" = some 1 ∧
    (perturb cC9 0 0 "eps" none).1 =
      .error "Parameter eps is not set for the pair." ∧
    getEntry (perturb cC9 0 0 "eps" none).2 0 "eps" = none := by
  refine ⟨rfl, ?_, ?_⟩ <;>
    simp [perturb, cC9, getEntry, setEntry, evaluate, evalParams]

/-- C9 (witness): perturbing `eps` from `1` to `5` succeeds, returns
the new and old parameter evaluations, and restores the slot. -/
theorem perturb_restores_witness :
    getEntry (perturb cC9 0 0 "eps" (some 5)).2 0 "eps" = getEntry cC9 0 "eps" ∧
    evaluate cC9 0 = .ok [("eps", 1)] ∧
    evaluate (setEntry cC9 0 "eps" (some 5)) 0 = .ok [("eps", 5)] := by
  have h := perturb_restores_on_success cC9 0 0 "eps" (some 5) [("eps", 5)]
    [("eps", 1)]
    (by simp [perturb, cC9, getEntry, setEntry, evaluate, evalParams])
  exact ⟨h.1 0 "eps", h.2.1, h.2.2⟩

/-!  ## Claims about `LineSearch.find` -/

theorem probeState_congr (o : Objective) (s : OResult) (d : ℕ → ℚ) (σ0 σc : VState)
    (hinv : ∀ x, x ∉ o.dvars → σc x = σ0 x) (stp : ℚ) :
    probeState o s d stp σc = probeState o s d stp σ0 := by
  funext x
  by_cases hx : x ∈ o.dvars
  · simp [probeState, hx]
  · simp [probeState, hx, hinv x hx]

theorem lsLoop_shape (o : Objective) (s : OResult) (d : ℕ → ℚ) (tol : ℚ) (σ0 : VState) :
    ∀ (fuel : ℕ) (σc : VState) (st tg : ℚ × ℚ),
      (∀ x, x ∉ o.dvars → σc x = σ0 x) →
      (∃ stp, (lsLoop o s d tol fuel σc st tg).1 =
        compute o (probeState o s d stp σ0)) ∧
      (∀ x, x ∉ o.dvars →
        (lsLoop o s d tol fuel σc st tg).2 x = σ0 x) := by
  intro fuel
  induction fuel with
  | zero =>
    intro σc st tg hinv
    simp only [lsLoop]
    refine ⟨⟨(st.1 * tg.2 - st.2 * tg.1) / (tg.2 - tg.1), ?_⟩, ?_⟩
    · rw [probeState_congr o s d σ0 σc hinv]
    · intro x hx
      simp [probeState, hx, hinv x hx]
  | succ fuel' ih =>
    intro σc st tg hinv
    have hinv1 : ∀ x, x ∉ o.dvars →
        probeState o s d ((st.1 * tg.2 - st.2 * tg.1) / (tg.2 - tg.1)) σc x = σ0 x := by
      intro x hx
      simp [probeState, hx, hinv x hx]
    simp only [lsLoop]
    split
    · refine ⟨⟨(st.1 * tg.2 - st.2 * tg.1) / (tg.2 - tg.1), ?_⟩, ?_⟩
      · rw [probeState_congr o s d σ0 σc hinv]
      · intro x hx
        simp [probeState, hx, hinv x hx]
    · split
      · exact ih _ _ _ hinv1
      · exact ih _ _ _ hinv1

/-- C8: every `LineSearch.find` call leaves every variable exactly as it
found it — on the error paths nothing has been written yet, and the
normal path restores the captured values — while a returned result is
either the `end` argument itself or the objective computed at one of
the probed interior points (whose frozen values differ from the
restored state). -/
theorem lsfind_frame (ls : LineSearch) (o : Objective) (σ : VState) (s e : OResult) :
    (∀ x, (lsFind ls o σ s e).2 x = σ x) ∧
    (∀ res, (lsFind ls o σ s e).1 = .ok res →
      res = e ∨ ∃ stp, res = compute o (probeState o s (searchDir s e) stp σ)) := by
  simp only [lsFind]
  split
  · exact ⟨fun x => rfl, fun res h => by simp at h⟩
  · split
    · exact ⟨fun x => rfl, fun res h => by simp at h⟩
    · split
      · refine ⟨fun x => rfl, fun res h => ?_⟩
        simp only [Except.ok.injEq] at h
        exact Or.inl h.symm
      · constructor
        · intro x
          by_cases hx : x ∈ o.dvars
          · simp [hx]
          · simp only [hx, if_false]
            exact (lsLoop_shape o s _ _ σ _ σ _ _ (fun y _ => rfl)).2 x hx
        · intro res h
          simp only [Except.ok.injEq] at h
          obtain ⟨stp, hstp⟩ :=
            (lsLoop_shape o s (searchDir s e) _ σ _ σ _ _ (fun y _ => rfl)).1
          exact Or.inr ⟨stp, h ▸ hstp⟩

/-- C8 (witness): on the spec's quadratic `f(x)=(x-1)^2` bracketed from
`x=3` to `x=-1`, `find` returns the interior point reached with step
`1/2` (the minimizer `x=1`) while the variable store is restored to
`3`. -/
theorem lsfind_frame_witness :
    (lsFind lsC8 oC8 (fun _ => 3) sC8 eC8).2 0 = (fun _ => (3 : ℚ)) 0 ∧
    (compute oC8 (probeState oC8 sC8 (searchDir sC8 eC8) (1/2) (fun _ => 3)) = eC8 ∨
     ∃ stp, compute oC8 (probeState oC8 sC8 (searchDir sC8 eC8) (1/2) (fun _ => 3)) =
       compute oC8 (probeState oC8 sC8 (searchDir sC8 eC8) stp (fun _ => 3))) := by
  have hres : (lsFind lsC8 oC8 (fun _ => 3) sC8 eC8).1 =
      .ok (compute oC8 (probeState oC8 sC8 (searchDir sC8 eC8) (1/2) (fun _ => 3))) := by
    norm_num [lsFind, lsLoop, dotKeys, searchDir, oC8, sC8, eC8, lsC8, compute,
      probeState, qabs]
  exact ⟨(lsfind_frame lsC8 oC8 (fun _ => 3) sC8 eC8).1 0,
    (lsfind_frame lsC8 oC8 (fun _ => 3) sC8 eC8).2 _ hres⟩

/-- C7 (amended): `find` raises `NotDescentDirection` — before touching
any design variable — exactly when the start target is strictly
negative; a zero start target passes the check (see the
counterexample). -/
theorem lsfind_not_descent_raises (ls : LineSearch) (o : Objective) (σ : VState)
    (s e : OResult)
    (hd : dotKeys o.dvars (searchDir s e) (searchDir s e) ≠ 0)
    (ht : -(dotKeys o.dvars (searchDir s e) s.grad) < 0) :
    lsFind ls o σ s e =
      (.error "The defined search interval must be a descent direction.", σ) := by
  simp only [lsFind]
  rw [if_neg hd, if_pos ht]

/-- C7 (counterexample): with gradient `-x`, start at `x=0` (zero
gradient, so the start target is exactly `0`) and end at `x=1`, the
direction is nonzero and the start target is not strictly positive, yet
`find` returns normally (accepting the end point) instead of failing
with `NotDescentDirection`. -/
theorem lsfind_zero_target_no_raise :
    dotKeys oC7.dvars (searchDir sC7 eC7) (searchDir sC7 eC7) ≠ 0 ∧
    -(dotKeys oC7.dvars (searchDir sC7 eC7) sC7.grad) = 0 ∧
    (lsFind ⟨1/2, 10⟩ oC7 (fun _ => 0) sC7 eC7).1 = .ok eC7 := by
  refine ⟨?_, ?_, ?_⟩
  · norm_num [dotKeys, searchDir, oC7, sC7, eC7, compute]
  · norm_num [dotKeys, searchDir, oC7, sC7, eC7, compute]
  · norm_num [lsFind, dotKeys, searchDir, oC7, sC7, eC7, compute, qabs]

/-- C7 (witness): with gradient `x`, start at `x=1` and end at `x=2`,
the start target is `-1 < 0` and `find` raises without mutating the
store. -/
theorem lsfind_not_descent_witness :
    lsFind ⟨1/2, 10⟩ oC7w (fun _ => 1) sC7w eC7w =
      (.error "The defined search interval must be a descent direction.",
        fun _ => 1) :=
  lsfind_not_descent_raises ⟨1/2, 10⟩ oC7w (fun _ => 1) sC7w eC7w
    (by norm_num [dotKeys, searchDir, oC7w, sC7w, eC7w, compute])
    (by norm_num [dotKeys, searchDir, oC7w, sC7w, eC7w, compute])

/-!  ## Claims about `SteepestDescent.optimize` -/

theorem descentLoop_ok_iters (sd : SDesc) (o : Objective) :
    ∀ (fuel : ℕ) (σ : VState) (cur : OResult) (k : ℕ) (fin : OResult) (it : ℕ)
      (σf : VState),
      descentLoop sd o fuel σ cur k = (.ok (fin, it), σf) →
      hasConverged sd.absTol fin = .ok false → it = k + fuel := by
  intro fuel
  induction fuel with
  | zero =>
    intro σ cur k fin it σf h hconv
    rw [descentLoop] at h
    rcases hc : hasConverged sd.absTol cur with e | b
    · rw [hc] at h
      simp at h
    · cases b
      · rw [hc] at h
        simp only [Prod.mk.injEq, Except.ok.injEq] at h
        omega
      · rw [hc] at h
        simp only [Prod.mk.injEq, Except.ok.injEq] at h
        obtain ⟨⟨h1, h2⟩, h3⟩ := h
        rw [← h1] at hconv
        rw [hc] at hconv
        exact absurd hconv (by simp)
  | succ fuel' ih =>
    intro σ cur k fin it σf h hconv
    rw [descentLoop] at h
    rcases hc : hasConverged sd.absTol cur with e | b
    · rw [hc] at h
      simp at h
    · cases b
      · rw [hc] at h
        dsimp only at h
        rcases hls : sd.lineSearch with _ | ls
        · rw [hls] at h
          dsimp only at h
          have := ih _ _ _ _ _ _ h hconv
          omega
        · rw [hls] at h
          dsimp only at h
          rcases hlf : lsFind ls o (sdStep sd o σ cur) cur
              (compute o (sdStep sd o σ cur)) with ⟨e2 | lr, σ2⟩
          · rw [hlf] at h
            simp at h
          · rw [hlf] at h
            dsimp only at h
            have := ih _ _ _ _ _ _ h hconv
            omega
      · rw [hc] at h
        simp only [Prod.mk.injEq, Except.ok.injEq] at h
        obtain ⟨⟨h1, h2⟩, h3⟩ := h
        rw [← h1] at hconv
        rw [hc] at hconv
        exact absurd hconv (by simp)

/-- C2: a completed `SteepestDescent.optimize` call returns `None`
exactly when the objective has no design variables, and otherwise
returns the convergence verdict at the final evaluated result — `True`
exactly when `has_converged` holds there, and `False` only after the
full `max_iter` iterations have elapsed without convergence. -/
theorem sd_optimize_outcomes (sd : SDesc) (o : Objective) (σ : VState) :
    ((optimize sd o σ).1 = .ok none ↔ o.dvars = []) ∧
    (∀ b, (optimize sd o σ).1 = .ok (some b) →
      o.dvars ≠ [] ∧
      ∀ fin iters σf,
        descentLoop sd o sd.maxIter σ (compute o σ) 0 = (.ok (fin, iters), σf) →
        hasConverged sd.absTol fin = .ok b ∧ (b = false → iters = sd.maxIter)) := by
  by_cases hE : o.dvars = []
  · have hopt : (optimize sd o σ).1 = .ok none := by simp [optimize, hE]
    constructor
    · rw [hopt]
      exact ⟨fun _ => hE, fun _ => rfl⟩
    · intro b hb
      rw [hopt] at hb
      simp at hb
  · have hne : o.dvars.isEmpty = false := by
      rcases hd : o.dvars with _ | ⟨y, ys⟩
      · exact absurd hd hE
      · simp
    rcases hD : descentLoop sd o sd.maxIter σ (compute o σ) 0 with ⟨rD, σD⟩
    rcases rD with e | ⟨fin0, it0⟩
    · have hopt : (optimize sd o σ).1 = .error e := by
        simp [optimize, hne, hD]
      constructor
      · rw [hopt]
        exact ⟨fun h => by simp at h, fun h => absurd h hE⟩
      · intro b hb
        rw [hopt] at hb
        simp at hb
    · rcases hc : hasConverged sd.absTol fin0 with e | b0
      · have hopt : (optimize sd o σ).1 = .error e := by
          simp [optimize, hne, hD, hc]
        constructor
        · rw [hopt]
          exact ⟨fun h => by simp at h, fun h => absurd h hE⟩
        · intro b hb
          rw [hopt] at hb
          simp at hb
      · have hopt : (optimize sd o σ).1 = .ok (some b0) := by
          simp [optimize, hne, hD, hc]
        constructor
        · rw [hopt]
          exact ⟨fun h => by simp at h, fun h => absurd h hE⟩
        · intro b hb
          rw [hopt] at hb
          simp only [Except.ok.injEq, Option.some.injEq] at hb
          subst hb
          refine ⟨hE, ?_⟩
          intro fin iters σf hD2
          simp only [Prod.mk.injEq, Except.ok.injEq] at hD2
          obtain ⟨⟨h1, h2⟩, h3⟩ := hD2
          subst h1
          subst h2
          refine ⟨hc, ?_⟩
          intro hb0
          subst hb0
          have := descentLoop_ok_iters sd o sd.maxIter σ (compute o σ) 0 fin0 it0
            σD hD hc
          omega

/-- C2 (witness): on the never-converging unit-gradient objective with
`max_iter = 1` and zero tolerance, `optimize` returns `False`, the loop
performs exactly `max_iter = 1` iterations, and the final result fails
the convergence predicate. -/
theorem sd_optimize_outcomes_witness :
    hasConverged sdC2.absTol
      (compute oC2 (sdStep sdC2 oC2 (fun _ => 0) (compute oC2 (fun _ => 0)))) =
      .ok false ∧
    (false = false → 1 = sdC2.maxIter) := by
  have h := (sd_optimize_outcomes sdC2 oC2 (fun _ => 0)).2 false
    (by norm_num [optimize, descentLoop, hasConverged, hasConvergedAux, lookupTol,
      lookupScale, compute, sdStep, sdC2, oC2, qabs])
  exact h.2 (compute oC2 (sdStep sdC2 oC2 (fun _ => 0) (compute oC2 (fun _ => 0))))
    1 (sdStep sdC2 oC2 (fun _ => 0) (compute oC2 (fun _ => 0)))
    (by norm_num [descentLoop, hasConverged, hasConvergedAux,
      lookupTol, lookupScale, compute, sdStep, sdC2, oC2, qabs])

/-- C1: the tentative update of `SteepestDescent.optimize` multiplies
the raw gradient by the scale once, not squared: with `x_old = 0`,
`step_size = 1/4`, `scale = 2` and a unit gradient, the variable is
written `0 - (1/4)*(2*1) = -1/2`, not the claimed (and
`method.py`-docstring-documented) `0 - (1/4)*(2^2*1) = -1`. -/
theorem sd_update_uses_scale_once :
    (optimize sdC1 oC1 (fun _ => 0)).2 0 = 0 - 1/4 * (2 * 1) ∧
    (optimize sdC1 oC1 (fun _ => 0)).2 0 ≠ 0 - 1/4 * (2 ^ 2 * 1) := by
  have h : (optimize sdC1 oC1 (fun _ => 0)).2 0 = -(1/2) := by
    norm_num [optimize, descentLoop, hasConverged, hasConvergedAux, lookupTol,
      lookupScale, compute, sdStep, sdC1, oC1, qabs]
  constructor
  · rw [h]; norm_num
  · rw [h]; norm_num

end Relentless
